import Mathlib

/-!
Verification development for the `asyncEffect` combinator of the
`async-effects` repository (package `redux-async-effect`, file
`src/async-effect.ts` of that package, plus the raw-mode adapter).

The embedding models:
* dynamic JS values as far as the dispatcher inspects them (`JSVal`),
* the structural classifier `isIterator` (probing `next`/`return`/`throw`,
  including the TypeError raised by a property access on `undefined`/`null`),
* the per-invocation inner stream built by `asyncEffect` (promise /
  iterator-drain loop / `of(value)`, then the pipe
  `flatMap(array-expand) ∘ catchError(log; empty) ∘ filter(≠ undefined)`),
* the outer merge of inner streams into the output stream under
  `flatMap` (accumulate) or `switchMap` (preempt) as a small-step machine
  driven by an explicit interleaving schedule,
* the raw-mode `inputGenerator` (single signal promise, FIFO buffer,
  drain-after-complete) as a small-step machine.

Array values hold atoms (`JSAtom`), i.e. the model fixes one level of
array nesting; the dispatcher's `flatMap(Array.isArray ...)` expands
exactly one level, so this fragment is enough for every claim.
-/

/-- Non-array dynamic JS values.  `obj` carries the name of the object plus
flags recording whether the properties `next`, `return` and `throw` are
present (i.e. not `undefined`). -/
inductive JSAtom where
  | undef
  | null
  | str (s : String)
  | num (n : Int)
  | obj (name : String) (hasNext : Bool) (hasRet : Bool) (hasThrow : Bool)
deriving Repr, DecidableEq

/-- Dynamic JS values as far as `asyncEffect` inspects them: an atom, or an
array of atoms (the "ordered collection" shape: a tuple/array of actions). -/
inductive JSVal where
  | atom (a : JSAtom)
  | arr (elems : List JSAtom)
deriving Repr, DecidableEq

/-- The `undefined` value. -/
def JSVal.undef : JSVal := JSVal.atom JSAtom.undef

/-- The `null` value. -/
def JSVal.null : JSVal := JSVal.atom JSAtom.null

/-- A string value. -/
def JSVal.str (s : String) : JSVal := JSVal.atom (JSAtom.str s)

/-- JS property read `value.p` for the three properties probed by
`isIterator`.  Reading a property of `undefined` or `null` throws a
TypeError; on any other value the read yields the property (or
`undefined` when absent).  Present properties are modelled as the
string `"function"` (only definedness is ever inspected). -/
def getProp : JSVal → String → Except JSVal JSVal
  | JSVal.atom JSAtom.undef, p =>
      Except.error (JSVal.str ("TypeError: cannot read " ++ p ++ " of undefined"))
  | JSVal.atom JSAtom.null, p =>
      Except.error (JSVal.str ("TypeError: cannot read " ++ p ++ " of null"))
  | JSVal.atom (JSAtom.obj _ hn hr ht), p =>
      if p = "next" then Except.ok (if hn then JSVal.str "function" else JSVal.undef)
      else if p = "return" then Except.ok (if hr then JSVal.str "function" else JSVal.undef)
      else if p = "throw" then Except.ok (if ht then JSVal.str "function" else JSVal.undef)
      else Except.ok JSVal.undef
  | _, _ => Except.ok JSVal.undef

/-- The classifier of `async-effect.ts`:
`value.next !== undefined && value.return !== undefined && value.throw !== undefined`,
with JS left-to-right short-circuit evaluation.  The `Except` layer records
the TypeError raised when `value` is `undefined` or `null`. -/
def isIterator (value : JSVal) : Except JSVal Bool := do
  let n ← getProp value "next"
  if n = JSVal.undef then return false
  let r ← getProp value "return"
  if r = JSVal.undef then return false
  let t ← getProp value "throw"
  return decide (t ≠ JSVal.undef)

deriving instance DecidableEq for Except

/-- One pull of an incremental producer: `next()` resolves with a yielded
value, resolves with `done: true`, or rejects. -/
inductive StepRes where
  | yield (v : JSVal)
  | stop
  | fail (e : JSVal)
deriving Repr, DecidableEq

/-- What one handler invocation does: throw synchronously, return a promise
(which resolves or rejects), or return a plain value `v`; `pull` is the
observable behaviour of `v.next()` in case the dispatcher classifies `v`
as an iterator and drains it. -/
inductive HandlerCall where
  | throws (e : JSVal)
  | retPromise (res : Except JSVal JSVal)
  | ret (v : JSVal) (pull : List StepRes)
deriving Repr, DecidableEq

/-- Denotation of the iterator drain loop
`for await (const action of handlerResult) { if (done) break; subscriber.next(action) }`:
the values emitted before the producer reports done or fails, and the
failure (if any) forwarded to `subscriber.error`. -/
def runSteps : List StepRes → List JSVal × Option JSVal
  | [] => ([], none)
  | StepRes.yield v :: rest => (v :: (runSteps rest).1, (runSteps rest).2)
  | StepRes.stop :: _ => ([], none)
  | StepRes.fail e :: _ => ([], some e)

/-- `flatMap(actions => (Array.isArray(actions) ? actions : of(actions)))`:
an array is expanded into its elements, anything else passes as one item. -/
def expand : JSVal → List JSVal
  | JSVal.arr xs => xs.map JSVal.atom
  | v => [v]

/-- The tail pipe of every inner stream:
array expansion, then `catchError` (route the failure to the logger and
replace the tail with the empty stream), then `filter(x => x !== undefined)`.
Returns (emitted output events, logger calls). -/
def innerPipe (emits : List JSVal) (err : Option JSVal) : List JSVal × List JSVal :=
  ((emits.flatMap expand).filter (fun v => v ≠ JSVal.undef), err.toList)

/-- Denotation of `innerStream value` for one invocation
(`async-effect.ts`, non-raw branch): classify the handler result, adapt it
to an observable, and apply `innerPipe`.  `Except.error e` is a synchronous
throw escaping `innerStream` itself — the handler throwing, or `isIterator`
raising a TypeError — which `flatMap`/`switchMap` turn into a terminal
failure of the output stream. -/
def innerStream (call : HandlerCall) : Except JSVal (List JSVal × List JSVal) :=
  match call with
  | HandlerCall.throws e => Except.error e
  | HandlerCall.retPromise (Except.ok v) => Except.ok (innerPipe [v] none)
  | HandlerCall.retPromise (Except.error e) => Except.ok (innerPipe [] (some e))
  | HandlerCall.ret v pull =>
    match isIterator v with
    | Except.error te => Except.error te
    | Except.ok true => Except.ok (innerPipe (runSteps pull).1 (runSteps pull).2)
    | Except.ok false => Except.ok (innerPipe [v] none)

/-- The still-tracked state of one started invocation: the output events it
has not yet pushed downstream, the pending logger call of its isolated
failure (if any, pushed after its last event), and the cooperative
liveness flag (`switchMap` unsubscribing a superseded inner stream clears
it; the inner loop then stops without emitting). -/
structure InvRec where
  emits : List JSVal
  logs : List JSVal
  live : Bool
deriving Repr, DecidableEq

/-- State of one subscription to the observable returned by `asyncEffect`
(non-raw branch).  `invs` is indexed by invocation number (the position of
the triggering input event): `none` means that invocation has finished or
was discarded.  `output` records emitted output events tagged with the
emitting invocation, `logs` the error-sink calls, `failed` the terminal
failure of the output stream (if any), `srcDone` whether the input stream
has terminated. -/
structure EffState where
  pending : List HandlerCall
  ending : Option JSVal
  srcDone : Bool
  invs : List (Option InvRec)
  output : List (Nat × JSVal)
  logs : List JSVal
  failed : Option JSVal
deriving Repr, DecidableEq

/-- Initial state: the input stream will deliver one `HandlerCall` per input
event and then terminate (`ending = none`: complete, `some e`: fail). -/
def initState (inputs : List HandlerCall) (ending : Option JSVal) : EffState :=
  ⟨inputs, ending, false, [], [], [], none⟩

/-- A scheduler choice: deliver the next input-stream notification, or let
invocation `i` take its next asynchronous step. -/
inductive Choice where
  | deliver
  | advance (i : Nat)
deriving Repr, DecidableEq

/-- `switchMap` unsubscribing every previously started inner stream: their
cooperative flags are cleared, so they stop after the step in flight. -/
def killAll (invs : List (Option InvRec)) : List (Option InvRec) :=
  invs.map (Option.map fun r => { r with live := false })

/-- A terminal failure of the output stream unsubscribes every inner
stream outright. -/
def clearAll (invs : List (Option InvRec)) : List (Option InvRec) :=
  invs.map fun _ => none

/-- One scheduler step of `input.pipe(config.switch ? switchMap(innerStream) : flatMap(innerStream))`.

`deliver` hands the next input-stream notification to the merge operator:
a value starts a new invocation through `innerStream` (a synchronous throw
there becomes `destination.error`, i.e. a terminal output failure);
completion marks the source done; a source failure is a terminal output
failure.  Under `switchMap` a new invocation unsubscribes all previous
ones.  `advance i` lets invocation `i` take one asynchronous step: push
its next output event, or its pending logger call, or complete; an
unsubscribed (non-live) invocation is discarded without emitting
anything.  After a terminal failure nothing further happens. -/
def effStep (useSwitch : Bool) (s : EffState) (c : Choice) : EffState :=
  if s.failed.isSome then s else
  match c with
  | Choice.deliver =>
    match s.pending with
    | [] =>
      if s.srcDone then s
      else
        match s.ending with
        | some e => { s with failed := some e, srcDone := true, invs := clearAll s.invs }
        | none => { s with srcDone := true }
    | call :: rest =>
      match innerStream call with
      | Except.error e => { s with failed := some e, pending := rest, invs := clearAll s.invs }
      | Except.ok (emits, lgs) =>
        let base := if useSwitch then killAll s.invs else s.invs
        { s with pending := rest, invs := base ++ [some ⟨emits, lgs, true⟩] }
  | Choice.advance i =>
    match s.invs[i]? with
    | some (some r) =>
      if r.live then
        match r.emits with
        | v :: restE =>
          { s with invs := s.invs.set i (some ⟨restE, r.logs, r.live⟩),
                   output := s.output ++ [(i, v)] }
        | [] =>
          match r.logs with
          | e :: restL =>
            { s with invs := s.invs.set i (some ⟨[], restL, r.live⟩), logs := s.logs ++ [e] }
          | [] => { s with invs := s.invs.set i none }
      else { s with invs := s.invs.set i none }
    | _ => s

/-- Run the machine over an interleaving schedule. -/
def effRun (useSwitch : Bool) (s : EffState) (sched : List Choice) : EffState :=
  sched.foldl (effStep useSwitch) s

/-- The output stream has completed normally: the input stream completed and
every still-tracked invocation has finished (`flatMap`/`switchMap`
completion condition), with no terminal failure. -/
def Completed (s : EffState) : Prop :=
  s.pending = [] ∧ s.srcDone = true ∧ s.failed = none ∧ ∀ x ∈ s.invs, x = none

instance : DecidablePred Completed := fun s => by
  unfold Completed; infer_instance

/-- The output events contributed by invocation `i`, in emission order. -/
def tagOut (out : List (Nat × JSVal)) (i : Nat) : List JSVal :=
  (out.filter fun p => p.1 = i).map Prod.snd

/-- The output events invocation `i` still has to emit. -/
def emitsAt (invs : List (Option InvRec)) (i : Nat) : List JSVal :=
  match invs[i]? with
  | some (some r) => r.emits
  | _ => []

/-- An input-stream notification delivered to raw mode's `inputGenerator`
observer. -/
inductive RawSig where
  | next (v : JSVal)
  | complete
  | fail (e : JSVal)
deriving Repr, DecidableEq

/-- One event of a raw-mode run: an input-stream notification arrives, or
the handler pulls the next item from the input sequence. -/
inductive RawChoice where
  | arrive (sg : RawSig)
  | pull
deriving Repr, DecidableEq

/-- State of raw mode's `inputGenerator`.
`buffer` is the FIFO of received-but-not-yet-pulled items; `done` the
`complete()` flag; `settled` the one-shot signal promise (`none` pending,
`some none` resolved, `some (some e)` rejected — the promise is created
once and settles at most once, so later `resolve`/`reject` calls are
no-ops); `pendingPull` records a pull suspended either on the unsettled
promise or on an empty buffer; `served` the items the handler has
received; `ended` the generator's end (`some none`: reported done,
`some (some e)`: raised `e` into the handler). -/
structure RawState where
  buffer : List JSVal
  done : Bool
  settled : Option (Option JSVal)
  pendingPull : Bool
  served : List JSVal
  ended : Option (Option JSVal)
deriving Repr, DecidableEq

/-- The generator before any notification or pull. -/
def rawInit : RawState := ⟨[], false, none, false, [], none⟩

/-- The generator loop's `buffer.shift(); if (elem !== undefined) yield elem`:
skip `undefined` elements and serve the first defined one. -/
def pullLoop : List JSVal → Option (JSVal × List JSVal)
  | [] => none
  | JSVal.atom JSAtom.undef :: rest => pullLoop rest
  | v :: rest => some (v, rest)

/-- Settle the one-shot signal promise (no-op when already settled). -/
def settleWith (st : Option (Option JSVal)) (r : Option JSVal) : Option (Option JSVal) :=
  match st with
  | none => some r
  | some x => some x

/-- One step of `inputGenerator` (raw branch of `asyncEffect`).

A `pull` runs the generator until it yields, finishes, raises, or
suspends: in the drain phase (`done`) it serves from the buffer and then
reports done; otherwise it awaits the signal promise — suspending while
unsettled, raising the rejection, or serving the next buffered item
(suspending again on an empty buffer, since the one-shot promise is
already resolved and the loop keeps awaiting it).

An arriving `next v` buffers the item, resolves the signal if still
pending, and resumes a suspended pull; `complete` sets `done`, resolves
the signal if still pending, and lets a suspended pull drain and report
done; `fail e` rejects the signal **only if it is still unsettled** —
otherwise the rejection is lost and a suspended pull stays suspended. -/
def rawStep (s : RawState) (c : RawChoice) : RawState :=
  if s.ended.isSome then s else
  match c with
  | RawChoice.pull =>
    if s.pendingPull then s
    else if s.done then
      match pullLoop s.buffer with
      | some (v, rest) => { s with buffer := rest, served := s.served ++ [v] }
      | none => { s with buffer := [], ended := some none }
    else
      match s.settled with
      | none => { s with pendingPull := true }
      | some (some e) => { s with ended := some (some e) }
      | some none =>
        match pullLoop s.buffer with
        | some (v, rest) => { s with buffer := rest, served := s.served ++ [v] }
        | none => { s with buffer := [], pendingPull := true }
  | RawChoice.arrive (RawSig.next v) =>
    let s' := { s with buffer := s.buffer ++ [v], settled := settleWith s.settled none }
    if s'.pendingPull then
      match pullLoop s'.buffer with
      | some (w, rest) =>
        { s' with buffer := rest, served := s'.served ++ [w], pendingPull := false }
      | none => s'
    else s'
  | RawChoice.arrive RawSig.complete =>
    let s' := { s with done := true, settled := settleWith s.settled none }
    if s'.pendingPull then
      match pullLoop s'.buffer with
      | some (w, rest) =>
        { s' with buffer := rest, served := s'.served ++ [w], pendingPull := false }
      | none => { s' with buffer := [], pendingPull := false, ended := some none }
    else s'
  | RawChoice.arrive (RawSig.fail e) =>
    match s.settled with
    | none =>
      if s.pendingPull then
        { s with settled := some (some e), pendingPull := false, ended := some (some e) }
      else { s with settled := some (some e) }
    | some _ => s

/-- Run the generator machine over a schedule. -/
def rawRun (sched : List RawChoice) : RawState :=
  sched.foldl rawStep rawInit

/-- A handler pulling each input item and yielding its upper-cased form. -/
def upperJS : JSVal → JSVal
  | JSVal.atom (JSAtom.str s) => JSVal.atom (JSAtom.str (String.mk (s.data.map Char.toUpper)))
  | v => v

/-- A schedule made of `n` consecutive pulls. -/
def pullsN (n : Nat) : List RawChoice := List.replicate n RawChoice.pull

/-- Invariant of the accumulate (`flatMap`) machine: as long as the output
stream has not failed, the inputs not yet delivered are exactly the tail of
the input list, every tracked invocation is live, and for every started
invocation `i` the output events already emitted for `i` followed by those
it still has to emit are exactly the events `innerStream` produces for
input `i`. -/
def FlatInv (inputs : List HandlerCall) (s : EffState) : Prop :=
  s.failed = none →
    (s.pending = inputs.drop s.invs.length ∧
     s.invs.length ≤ inputs.length ∧
     (∀ p ∈ s.output, p.1 < s.invs.length) ∧
     (∀ (i : Nat) (r : InvRec), s.invs[i]? = some (some r) → r.live = true) ∧
     (∀ i, i < s.invs.length →
        ∃ E L, innerStream (inputs.getD i (HandlerCall.ret JSVal.undef []))
                 = Except.ok (E, L) ∧
               tagOut s.output i ++ emitsAt s.invs i = E))

/-- A terminally failed output stream has unsubscribed every invocation. -/
def FailedClear (s : EffState) : Prop := s.failed.isSome → ∀ x ∈ s.invs, x = none

/-- Run the generator machine from an arbitrary state. -/
def rawRunFrom (s : RawState) (sched : List RawChoice) : RawState :=
  sched.foldl rawStep s

/-- Generator blocked on its first pull (signal promise unsettled). -/
def rawPend : RawState := { rawInit with pendingPull := true }

/-- Reachable generator states in the `['foo','bar']` raw-mode scenario
before completion: `rawB0`/`rawB1` after `'foo'` arrived (buffered / already
served), `rawC0`–`rawC2` after `'bar'` arrived, `rawD0`–`rawD2` after the
input completed (draining), `rawDEnd` once the generator reported done. -/
def rawB0 : RawState := ⟨[JSVal.str "foo"], false, some none, false, [], none⟩

/-- Scenario state: `'foo'` served, buffer empty, input still open. -/
def rawB1 : RawState := ⟨[], false, some none, false, [JSVal.str "foo"], none⟩

/-- Scenario state: as `rawB1` with a pull suspended on the empty buffer. -/
def rawB1p : RawState := { rawB1 with pendingPull := true }

/-- Scenario state: both items buffered, none served. -/
def rawC0 : RawState := ⟨[JSVal.str "foo", JSVal.str "bar"], false, some none, false, [], none⟩

/-- Scenario state: `'foo'` served, `'bar'` buffered. -/
def rawC1 : RawState := ⟨[JSVal.str "bar"], false, some none, false, [JSVal.str "foo"], none⟩

/-- Scenario state: both items served, input still open. -/
def rawC2 : RawState :=
  ⟨[], false, some none, false, [JSVal.str "foo", JSVal.str "bar"], none⟩

/-- Scenario state: as `rawC2` with a pull suspended on the empty buffer. -/
def rawC2p : RawState := { rawC2 with pendingPull := true }

/-- Scenario state: input complete, both items still buffered. -/
def rawD0 : RawState := ⟨[JSVal.str "foo", JSVal.str "bar"], true, some none, false, [], none⟩

/-- Scenario state: input complete, `'bar'` still buffered. -/
def rawD1 : RawState := ⟨[JSVal.str "bar"], true, some none, false, [JSVal.str "foo"], none⟩

/-- Scenario state: input complete, buffer drained. -/
def rawD2 : RawState :=
  ⟨[], true, some none, false, [JSVal.str "foo", JSVal.str "bar"], none⟩

/-- Scenario state: generator reported done after serving both items. -/
def rawDEnd : RawState :=
  ⟨[], true, some none, false, [JSVal.str "foo", JSVal.str "bar"], some none⟩

lemma filter_ne_undef_map_atom (xs : List JSAtom) (h : ∀ a ∈ xs, a ≠ JSAtom.undef) :
    (xs.map JSVal.atom).filter (fun v => v ≠ JSVal.undef) = xs.map JSVal.atom := by
  rw [List.filter_eq_self]
  intro v hv
  simp only [List.mem_map] at hv
  obtain ⟨a, ha, rfl⟩ := hv
  simpa [JSVal.undef] using h a ha

/-- C2: a handler invocation returning (or resolving to) an ordered
collection of K output values makes the output stream emit exactly those K
events, in the collection's order, and zero events when K = 0; no logger
call happens and no literal empty collection is passed downstream. -/
theorem claimC2_collection_expansion (xs : List JSAtom) (pull : List StepRes)
    (h : ∀ a ∈ xs, a ≠ JSAtom.undef) :
    innerStream (HandlerCall.ret (JSVal.arr xs) pull)
      = Except.ok (xs.map JSVal.atom, []) ∧
    innerStream (HandlerCall.retPromise (Except.ok (JSVal.arr xs)))
      = Except.ok (xs.map JSVal.atom, []) := by
  have hx : ([JSVal.arr xs].flatMap expand) = xs.map JSVal.atom := by simp [expand]
  have hpipe : innerPipe [JSVal.arr xs] none = (xs.map JSVal.atom, []) := by
    unfold innerPipe
    rw [hx, filter_ne_undef_map_atom xs h]
    rfl
  constructor
  · show Except.ok (innerPipe [JSVal.arr xs] none) = _
    rw [hpipe]
  · show Except.ok (innerPipe [JSVal.arr xs] none) = _
    rw [hpipe]

/-- Witness for C2 at the concrete collections `[a, b]` (K = 2) and `[]`
(K = 0). -/
theorem claimC2_collection_expansion_witness :
    (∀ a ∈ [JSAtom.str "a", JSAtom.str "b"], a ≠ JSAtom.undef) ∧
    innerStream (HandlerCall.ret (JSVal.arr [JSAtom.str "a", JSAtom.str "b"]) [])
      = Except.ok ([JSVal.str "a", JSVal.str "b"], []) ∧
    innerStream (HandlerCall.retPromise (Except.ok (JSVal.arr [])))
      = Except.ok ([], []) :=
  ⟨by decide,
   (claimC2_collection_expansion [JSAtom.str "a", JSAtom.str "b"] [] (by decide)).1,
   (claimC2_collection_expansion [] [] (by decide)).2⟩

/-- C3 (code bug): classification is claimed never to raise, treating
`undefined`/`null` as immediate single values; the code's `isIterator`
dereferences `value.next` on them, raising a TypeError that escapes
`innerStream` and terminates the output stream (logger not called). -/
theorem claimC3_classification_throws :
    isIterator JSVal.undef
      = Except.error (JSVal.str "TypeError: cannot read next of undefined") ∧
    isIterator JSVal.null
      = Except.error (JSVal.str "TypeError: cannot read next of null") ∧
    innerStream (HandlerCall.ret JSVal.undef [])
      = Except.error (JSVal.str "TypeError: cannot read next of undefined") ∧
    (effRun false (initState [HandlerCall.ret JSVal.undef []] none) [Choice.deliver]).failed
      = some (JSVal.str "TypeError: cannot read next of undefined") ∧
    (effRun false (initState [HandlerCall.ret JSVal.undef []] none) [Choice.deliver]).logs
      = [] := by decide

/-- C7 (code bug): an immediate single non-absent value is claimed to
produce exactly one output event equal to it — true for e.g. strings
(first conjunct), but false for `null`, where classification raises a
TypeError, the stream terminates and zero events are emitted; a
synchronously returned `undefined` (absent) likewise terminates the stream
instead of being benignly skipped. -/
theorem claimC7_immediate_value_events :
    (∀ s : String,
      innerStream (HandlerCall.ret (JSVal.str s) []) = Except.ok ([JSVal.str s], [])) ∧
    (effRun false (initState [HandlerCall.ret JSVal.null []] none) [Choice.deliver]).failed
      = some (JSVal.str "TypeError: cannot read next of null") ∧
    (effRun false (initState [HandlerCall.ret JSVal.null []] none) [Choice.deliver]).output
      = [] ∧
    (effRun false (initState [HandlerCall.ret JSVal.undef []] none) [Choice.deliver]).failed
      = some (JSVal.str "TypeError: cannot read next of undefined") :=
  ⟨fun _ => rfl, by decide, by decide, by decide⟩

/-- C10: an object with a `next` property but lacking `return` or `throw`
is not classified as an incremental producer; it is emitted downstream as
one immediate value, and its `next` is never pulled. -/
theorem claimC10_plain_iterator_not_classified (nm : String) (hr ht : Bool)
    (pull : List StepRes) (h : hr = false ∨ ht = false) :
    isIterator (JSVal.atom (JSAtom.obj nm true hr ht)) = Except.ok false ∧
    innerStream (HandlerCall.ret (JSVal.atom (JSAtom.obj nm true hr ht)) pull)
      = Except.ok ([JSVal.atom (JSAtom.obj nm true hr ht)], []) := by
  rcases h with rfl | rfl
  · exact ⟨rfl, rfl⟩
  · cases hr
    · exact ⟨rfl, rfl⟩
    · exact ⟨rfl, rfl⟩

/-- Witness for C10 at a concrete object with `next` only. -/
theorem claimC10_plain_iterator_not_classified_witness :
    ((false : Bool) = false ∨ (false : Bool) = false) ∧
    isIterator (JSVal.atom (JSAtom.obj "it" true false false)) = Except.ok false ∧
    innerStream
        (HandlerCall.ret (JSVal.atom (JSAtom.obj "it" true false false))
          [StepRes.yield (JSVal.str "never")])
      = Except.ok ([JSVal.atom (JSAtom.obj "it" true false false)], []) :=
  ⟨Or.inl rfl,
   (claimC10_plain_iterator_not_classified "it" false false [StepRes.yield (JSVal.str "never")]
      (Or.inl rfl)).1,
   (claimC10_plain_iterator_not_classified "it" false false [StepRes.yield (JSVal.str "never")]
      (Or.inl rfl)).2⟩

/-- C1 (code bug): the error sink is claimed to be invoked exactly once,
without terminating the stream, for all three failure modes.  That holds
for a rejected deferred value (first run) and for a producer step failure
(second run): one logger call with the raw value, the run completes, and a
subsequent matching input still produces its output.  But a handler that
throws synchronously escapes the `flatMap` project function: the output
stream terminates with the thrown value, the logger is never called, and
the subsequent input produces nothing (third run). -/
theorem claimC1_handler_failure_isolation :
    (Completed (effRun false
        (initState [HandlerCall.retPromise (Except.error (JSVal.str "boom")),
                    HandlerCall.ret (JSVal.str "x") []] none)
        [Choice.deliver, Choice.deliver, Choice.deliver, Choice.advance 0, Choice.advance 0,
         Choice.advance 1, Choice.advance 1]) ∧
     (effRun false
        (initState [HandlerCall.retPromise (Except.error (JSVal.str "boom")),
                    HandlerCall.ret (JSVal.str "x") []] none)
        [Choice.deliver, Choice.deliver, Choice.deliver, Choice.advance 0, Choice.advance 0,
         Choice.advance 1, Choice.advance 1]).logs = [JSVal.str "boom"] ∧
     (effRun false
        (initState [HandlerCall.retPromise (Except.error (JSVal.str "boom")),
                    HandlerCall.ret (JSVal.str "x") []] none)
        [Choice.deliver, Choice.deliver, Choice.deliver, Choice.advance 0, Choice.advance 0,
         Choice.advance 1, Choice.advance 1]).output = [(1, JSVal.str "x")]) ∧
    (Completed (effRun false
        (initState [HandlerCall.ret (JSVal.atom (JSAtom.obj "gen" true true true))
                      [StepRes.yield (JSVal.str "y"), StepRes.fail (JSVal.str "boom")],
                    HandlerCall.ret (JSVal.str "x") []] none)
        [Choice.deliver, Choice.deliver, Choice.deliver, Choice.advance 0, Choice.advance 0,
         Choice.advance 0, Choice.advance 1, Choice.advance 1]) ∧
     (effRun false
        (initState [HandlerCall.ret (JSVal.atom (JSAtom.obj "gen" true true true))
                      [StepRes.yield (JSVal.str "y"), StepRes.fail (JSVal.str "boom")],
                    HandlerCall.ret (JSVal.str "x") []] none)
        [Choice.deliver, Choice.deliver, Choice.deliver, Choice.advance 0, Choice.advance 0,
         Choice.advance 0, Choice.advance 1, Choice.advance 1]).logs = [JSVal.str "boom"] ∧
     (effRun false
        (initState [HandlerCall.ret (JSVal.atom (JSAtom.obj "gen" true true true))
                      [StepRes.yield (JSVal.str "y"), StepRes.fail (JSVal.str "boom")],
                    HandlerCall.ret (JSVal.str "x") []] none)
        [Choice.deliver, Choice.deliver, Choice.deliver, Choice.advance 0, Choice.advance 0,
         Choice.advance 0, Choice.advance 1, Choice.advance 1]).output
       = [(0, JSVal.str "y"), (1, JSVal.str "x")]) ∧
    ((effRun false
        (initState [HandlerCall.throws (JSVal.str "boom"),
                    HandlerCall.ret (JSVal.str "x") []] none)
        [Choice.deliver, Choice.deliver, Choice.deliver, Choice.advance 0,
         Choice.advance 1]).failed = some (JSVal.str "boom") ∧
     (effRun false
        (initState [HandlerCall.throws (JSVal.str "boom"),
                    HandlerCall.ret (JSVal.str "x") []] none)
        [Choice.deliver, Choice.deliver, Choice.deliver, Choice.advance 0,
         Choice.advance 1]).logs = [] ∧
     (effRun false
        (initState [HandlerCall.throws (JSVal.str "boom"),
                    HandlerCall.ret (JSVal.str "x") []] none)
        [Choice.deliver, Choice.deliver, Choice.deliver, Choice.advance 0,
         Choice.advance 1]).output = []) := by decide

/-- C6 (code bug): an input-stream failure does propagate as a terminal
failure of the output stream (first run), but it is not the only failure
class that terminates it: a synchronous handler throw also terminates the
output stream even though the input stream never fails (second run, where
the input ending is completion). -/
theorem claimC6_output_failure_classes :
    ((effRun false (initState [HandlerCall.ret (JSVal.str "x") []] (some (JSVal.str "ufail")))
        [Choice.deliver, Choice.advance 0, Choice.advance 0, Choice.deliver]).failed
      = some (JSVal.str "ufail") ∧
     (effRun false (initState [HandlerCall.ret (JSVal.str "x") []] (some (JSVal.str "ufail")))
        [Choice.deliver, Choice.advance 0, Choice.advance 0, Choice.deliver]).output
      = [(0, JSVal.str "x")]) ∧
    ((effRun false (initState [HandlerCall.throws (JSVal.str "boom")] none)
        [Choice.deliver]).failed = some (JSVal.str "boom")) := by decide

lemma tagOut_append_self (out : List (Nat × JSVal)) (i : Nat) (v : JSVal) :
    tagOut (out ++ [(i, v)]) i = tagOut out i ++ [v] := by
  unfold tagOut
  rw [List.filter_append, List.map_append]
  simp

lemma tagOut_append_ne (out : List (Nat × JSVal)) (i j : Nat) (v : JSVal) (h : i ≠ j) :
    tagOut (out ++ [(i, v)]) j = tagOut out j := by
  unfold tagOut
  rw [List.filter_append, List.map_append]
  simp [h]

lemma tagOut_eq_nil (out : List (Nat × JSVal)) (i : Nat) (h : ∀ p ∈ out, p.1 ≠ i) :
    tagOut out i = [] := by
  unfold tagOut
  rw [List.filter_eq_nil_iff.mpr]
  · rfl
  · intro p hp
    simpa using h p hp

lemma emitsAt_append_lt (invs : List (Option InvRec)) (x : Option InvRec) (i : Nat)
    (h : i < invs.length) : emitsAt (invs ++ [x]) i = emitsAt invs i := by
  unfold emitsAt
  rw [List.getElem?_append_left h]

lemma emitsAt_append_self (invs : List (Option InvRec)) (r : InvRec) :
    emitsAt (invs ++ [some r]) invs.length = r.emits := by
  unfold emitsAt
  rw [List.getElem?_concat_length]

lemma emitsAt_set_self (invs : List (Option InvRec)) (i : Nat) (r : InvRec)
    (h : i < invs.length) : emitsAt (invs.set i (some r)) i = r.emits := by
  unfold emitsAt
  rw [List.getElem?_set_self h]

lemma emitsAt_set_none (invs : List (Option InvRec)) (i : Nat) :
    emitsAt (invs.set i none) i = [] := by
  unfold emitsAt
  rw [List.getElem?_set]
  by_cases h : i < invs.length <;> simp [h]

lemma emitsAt_set_ne (invs : List (Option InvRec)) (i j : Nat) (x : Option InvRec)
    (h : i ≠ j) : emitsAt (invs.set i x) j = emitsAt invs j := by
  unfold emitsAt
  rw [List.getElem?_set_ne h]

lemma flatInv_init (inputs : List HandlerCall) (ending : Option JSVal) :
    FlatInv inputs (initState inputs ending) := by
  intro _
  refine ⟨rfl, by simp [initState], ?_, ?_, ?_⟩
  · intro p hp
    simp [initState] at hp
  · intro i r h
    simp [initState] at h
  · intro i h
    simp [initState] at h

lemma flatInv_step (inputs : List HandlerCall) (s : EffState) (c : Choice)
    (hs : FlatInv inputs s) : FlatInv inputs (effStep false s c) := by
  by_cases hf : s.failed.isSome
  · simpa [effStep, hf] using hs
  have hfn : s.failed = none := Option.not_isSome_iff_eq_none.mp hf
  obtain ⟨h1, h2, h3, h4, h5⟩ := hs hfn
  cases c with
  | deliver =>
    cases hp : s.pending with
    | nil =>
      cases hsd : s.srcDone with
      | true =>
        intro _
        simp only [effStep, hf, Bool.false_eq_true, if_false, hp, hsd, if_true]
        exact ⟨h1 ▸ hp ▸ rfl, h2, h3, h4, h5⟩
      | false =>
        cases he : s.ending with
        | some e =>
          intro hcontra
          simp [effStep, hf, hp, hsd, he] at hcontra
        | none =>
          intro _
          simp only [effStep, hf, Bool.false_eq_true, if_false, hp, hsd, he]
          exact ⟨h1 ▸ hp ▸ rfl, h2, h3, h4, h5⟩
    | cons call rest =>
      cases hi : innerStream call with
      | error e =>
        intro hcontra
        simp [effStep, hf, hp, hi] at hcontra
      | ok EL =>
        obtain ⟨E0, L0⟩ := EL
        intro _
        simp only [effStep, hf, Bool.false_eq_true, if_false, hp, hi]
        have hlen : s.invs.length < inputs.length := by
          by_contra hge
          have : inputs.drop s.invs.length = [] :=
            List.drop_eq_nil_of_le (Nat.le_of_not_lt hge)
          rw [← h1, hp] at this
          exact List.noConfusion this
        have hcall : inputs[s.invs.length]? = some call := by
          have := List.getElem?_drop inputs s.invs.length 0
          rw [← h1, hp] at this
          simpa using this.symm
        refine ⟨?_, ?_, ?_, ?_, ?_⟩
        · have := congrArg List.tail h1
          rw [hp, List.tail_drop] at this
          simpa using this
        · simpa using hlen
        · intro p hpmem
          have := h3 p hpmem
          simp only [List.length_append, List.length_singleton]
          omega
        · intro i r h
          by_cases hil : i < s.invs.length
          · rw [List.getElem?_append_left hil] at h
            exact h4 i r h
          · have hile : s.invs.length ≤ i := Nat.le_of_not_lt hil
            rw [List.getElem?_append_right hile] at h
            rcases Nat.eq_or_lt_of_le hile with heq | hlt
            · rw [← heq, Nat.sub_self] at h
              simp at h
              rw [← h]
            · have : i - s.invs.length ≥ 1 := by omega
              rw [List.getElem?_eq_none (by simpa using this)] at h
              exact Option.noConfusion h
        · intro i hi'
          simp only [List.length_append, List.length_singleton] at hi'
          by_cases hil : i < s.invs.length
          · obtain ⟨E, L, hEL, heq⟩ := h5 i hil
            exact ⟨E, L, hEL, by rw [emitsAt_append_lt _ _ _ hil]; exact heq⟩
          · have : i = s.invs.length := by omega
            subst this
            refine ⟨E0, L0, ?_, ?_⟩
            · rw [List.getD_eq_getElem?_getD, hcall, Option.getD_some, hi]
            · have hnil : tagOut s.output s.invs.length = [] :=
                tagOut_eq_nil _ _ (fun p hpmem => Nat.ne_of_lt (h3 p hpmem))
              rw [emitsAt_append_self, hnil]
              rfl
  | advance i =>
    cases hg : s.invs[i]? with
    | none =>
      intro _
      simp only [effStep, hf, Bool.false_eq_true, if_false, hg]
      exact ⟨h1, h2, h3, h4, h5⟩
    | some o =>
      cases o with
      | none =>
        intro _
        simp only [effStep, hf, Bool.false_eq_true, if_false, hg]
        exact ⟨h1, h2, h3, h4, h5⟩
      | some r =>
        have hlive : r.live = true := h4 i r hg
        have hil : i < s.invs.length := by
          rcases List.getElem?_eq_some.mp hg with ⟨h, _⟩
          exact h
        cases hre : r.emits with
        | cons v restE =>
          intro _
          simp only [effStep, hf, Bool.false_eq_true, if_false, hg, hlive, hre, if_true]
          refine ⟨by simpa using h1, by simpa using h2, ?_, ?_, ?_⟩
          · intro p hpmem
            rw [List.length_set]
            rcases List.mem_append.mp hpmem with hold | hnew
            · exact h3 p hold
            · simp only [List.mem_singleton] at hnew
              subst hnew
              exact hil
          · intro j r' h
            by_cases hij : i = j
            · subst hij
              rw [List.getElem?_set_self hil] at h
              cases h
              rfl
            · rw [List.getElem?_set_ne hij] at h
              exact h4 j r' h
          · intro j hj
            rw [List.length_set] at hj
            obtain ⟨E, L, hEL, heq⟩ := h5 j hj
            refine ⟨E, L, hEL, ?_⟩
            by_cases hij : i = j
            · subst hij
              rw [tagOut_append_self, emitsAt_set_self _ _ _ hil]
              have hemits : emitsAt s.invs i = v :: restE := by
                unfold emitsAt
                rw [hg]
                exact hre
              rw [hemits] at heq
              rw [← heq]
              simp
            · rw [tagOut_append_ne _ _ _ _ hij, emitsAt_set_ne _ _ _ _ hij]
              exact heq
        | nil =>
          cases hrl : r.logs with
          | cons e restL =>
            intro _
            simp only [effStep, hf, Bool.false_eq_true, if_false, hg, hlive, hre, hrl, if_true]
            refine ⟨by simpa using h1, by simpa using h2, ?_, ?_, ?_⟩
            · intro p hpmem
              rw [List.length_set]
              exact h3 p hpmem
            · intro j r' h
              by_cases hij : i = j
              · subst hij
                rw [List.getElem?_set_self hil] at h
                cases h
                rfl
              · rw [List.getElem?_set_ne hij] at h
                exact h4 j r' h
            · intro j hj
              rw [List.length_set] at hj
              obtain ⟨E, L, hEL, heq⟩ := h5 j hj
              refine ⟨E, L, hEL, ?_⟩
              by_cases hij : i = j
              · subst hij
                rw [emitsAt_set_self _ _ _ hil]
                have hemits : emitsAt s.invs i = [] := by
                  unfold emitsAt
                  rw [hg]
                  exact hre
                rw [hemits] at heq
                exact heq
              · rw [emitsAt_set_ne _ _ _ _ hij]
                exact heq
          | nil =>
            intro _
            simp only [effStep, hf, Bool.false_eq_true, if_false, hg, hlive, hre, hrl, if_true]
            refine ⟨by simpa using h1, by simpa using h2, ?_, ?_, ?_⟩
            · intro p hpmem
              rw [List.length_set]
              exact h3 p hpmem
            · intro j r' h
              by_cases hij : i = j
              · subst hij
                rw [List.getElem?_set_self hil] at h
                exact Option.noConfusion (Option.some.inj h)
              · rw [List.getElem?_set_ne hij] at h
                exact h4 j r' h
            · intro j hj
              rw [List.length_set] at hj
              obtain ⟨E, L, hEL, heq⟩ := h5 j hj
              refine ⟨E, L, hEL, ?_⟩
              by_cases hij : i = j
              · subst hij
                rw [emitsAt_set_none]
                have hemits : emitsAt s.invs i = [] := by
                  unfold emitsAt
                  rw [hg]
                  exact hre
                rw [hemits] at heq
                exact heq
              · rw [emitsAt_set_ne _ _ _ _ hij]
                exact heq

lemma flatInv_run (inputs : List HandlerCall) (s : EffState) (sched : List Choice)
    (hs : FlatInv inputs s) : FlatInv inputs (effRun false s sched) := by
  induction sched generalizing s with
  | nil => exact hs
  | cons c rest ih =>
    rw [effRun, List.foldl_cons]
    exact ih _ (flatInv_step inputs s c hs)

/-- C5: under the accumulate policy (`flatMap`, the default), every started
invocation runs to completion: whenever the output stream completes, the
output events contributed by each invocation `i` are exactly the events
`innerStream` produces for input `i`, in their order, for every
interleaving schedule (the interleaving across invocations is
unconstrained). -/
theorem claimC5_accumulate_all_outputs (inputs : List HandlerCall) (sched : List Choice)
    (hc : Completed (effRun false (initState inputs none) sched)) (i : Nat)
    (h : i < inputs.length) :
    ∃ E L, innerStream inputs[i] = Except.ok (E, L) ∧
      tagOut (effRun false (initState inputs none) sched).output i = E := by
  obtain ⟨hp, _, hfn, hnone⟩ := hc
  obtain ⟨h1, h2, h3, h4, h5⟩ :=
    flatInv_run inputs (initState inputs none) sched (flatInv_init inputs none) hfn
  have hge : inputs.length ≤ (effRun false (initState inputs none) sched).invs.length :=
    List.drop_eq_nil_iff.mp (h1 ▸ hp)
  have hlt : i < (effRun false (initState inputs none) sched).invs.length :=
    Nat.lt_of_lt_of_le h hge
  obtain ⟨E, L, hEL, heq⟩ := h5 i hlt
  have hxi : (effRun false (initState inputs none) sched).invs[i]? = some none := by
    rw [List.getElem?_eq_getElem hlt]
    exact congrArg some (hnone _ (List.getElem_mem hlt))
  have hem : emitsAt (effRun false (initState inputs none) sched).invs i = [] := by
    unfold emitsAt
    rw [hxi]
  rw [hem, List.append_nil] at heq
  refine ⟨E, L, ?_, heq⟩
  rw [← hEL]
  congr 1
  rw [List.getD_eq_getElem?_getD, List.getElem?_eq_getElem h, Option.getD_some]

/-- Witness for C5: two overlapping invocations (an array result and a
deferred single value) both deliver all their output. -/
theorem claimC5_accumulate_all_outputs_witness :
    Completed (effRun false
      (initState [HandlerCall.ret (JSVal.arr [JSAtom.str "a", JSAtom.str "b"]) [],
                  HandlerCall.retPromise (Except.ok (JSVal.str "c"))] none)
      [Choice.deliver, Choice.deliver, Choice.deliver, Choice.advance 0, Choice.advance 1,
       Choice.advance 0, Choice.advance 0, Choice.advance 1]) ∧
    (∃ E L,
      innerStream ([HandlerCall.ret (JSVal.arr [JSAtom.str "a", JSAtom.str "b"]) [],
                    HandlerCall.retPromise (Except.ok (JSVal.str "c"))][0]) = Except.ok (E, L) ∧
      tagOut (effRun false
        (initState [HandlerCall.ret (JSVal.arr [JSAtom.str "a", JSAtom.str "b"]) [],
                    HandlerCall.retPromise (Except.ok (JSVal.str "c"))] none)
        [Choice.deliver, Choice.deliver, Choice.deliver, Choice.advance 0, Choice.advance 1,
         Choice.advance 0, Choice.advance 0, Choice.advance 1]).output 0 = E) :=
  ⟨by decide, claimC5_accumulate_all_outputs _ _ (by decide) 0 (by decide)⟩

lemma effStep_frozen (useSwitch : Bool) (s : EffState) (c : Choice)
    (h : s.failed.isSome) : effStep useSwitch s c = s := by
  simp [effStep, h]

lemma effRun_frozen (useSwitch : Bool) (s : EffState) (sched : List Choice)
    (h : s.failed.isSome) : effRun useSwitch s sched = s := by
  induction sched with
  | nil => rfl
  | cons c rest ih =>
    rw [effRun, List.foldl_cons, effStep_frozen _ _ _ h]
    exact ih

lemma clearAll_mem (invs : List (Option InvRec)) (x : Option InvRec)
    (hx : x ∈ clearAll invs) : x = none := by
  rcases List.mem_map.mp hx with ⟨y, _, h⟩
  exact h.symm

lemma clearAll_getElem? (invs : List (Option InvRec)) (i : Nat) (r : InvRec) :
    ¬((clearAll invs)[i]? = some (some r)) := by
  intro hx
  rw [clearAll, List.getElem?_map] at hx
  cases hy : invs[i]? with
  | none => rw [hy] at hx; exact Option.noConfusion hx
  | some o => rw [hy] at hx; simp at hx

lemma killAll_getElem? (invs : List (Option InvRec)) (i : Nat) (r : InvRec)
    (hx : (killAll invs)[i]? = some (some r)) : r.live = false := by
  rw [killAll, List.getElem?_map] at hx
  cases hy : invs[i]? with
  | none => rw [hy] at hx; exact Option.noConfusion hx
  | some o =>
    rw [hy] at hx
    cases o with
    | none => simp at hx
    | some r0 =>
      injection hx with h1
      injection h1 with h2
      rw [← h2]

lemma effStep_failed_of_advance (useSwitch : Bool) (s : EffState) (i : Nat)
    (hf : ¬s.failed.isSome = true) :
    (effStep useSwitch s (Choice.advance i)).failed = s.failed := by
  simp only [effStep, hf, Bool.false_eq_true, if_false]
  cases hg : s.invs[i]? with
  | none => rfl
  | some o =>
    cases o with
    | none => rfl
    | some r =>
      by_cases hl : r.live
      · simp only [hl, if_true]
        cases r.emits
        · cases r.logs <;> rfl
        · rfl
      · simp only [hl, Bool.false_eq_true, if_false]

lemma failedClear_step (useSwitch : Bool) (s : EffState) (c : Choice)
    (hs : FailedClear s) : FailedClear (effStep useSwitch s c) := by
  by_cases hf : s.failed.isSome
  · rw [effStep_frozen _ _ _ hf]
    exact hs
  cases c with
  | deliver =>
    cases hp : s.pending with
    | nil =>
      cases hsd : s.srcDone with
      | true =>
        intro h
        simp [effStep, hf, hp, hsd] at h
      | false =>
        cases he : s.ending with
        | some e =>
          intro _ x hx
          simp only [effStep, hf, Bool.false_eq_true, if_false, hp, hsd, he] at hx
          exact clearAll_mem _ x hx
        | none =>
          intro h
          simp [effStep, hf, hp, hsd, he] at h
    | cons call rest =>
      cases hi : innerStream call with
      | error e =>
        intro _ x hx
        simp only [effStep, hf, Bool.false_eq_true, if_false, hp, hi] at hx
        exact clearAll_mem _ x hx
      | ok EL =>
        intro h
        simp [effStep, hf, hp, hi] at h
  | advance i =>
    intro h
    rw [effStep_failed_of_advance useSwitch s i hf] at h
    exact absurd h hf

lemma failedClear_run (useSwitch : Bool) (s : EffState) (sched : List Choice)
    (hs : FailedClear s) : FailedClear (effRun useSwitch s sched) := by
  induction sched generalizing s with
  | nil => exact hs
  | cons c rest ih =>
    rw [effRun, List.foldl_cons]
    exact ih _ (failedClear_step useSwitch s c hs)

/-- One-step preservation for the preempt (`switchMap`) machine relative to
a stage `k`: invocations started before stage `k` stay cancelled, and every
output event appended from here on carries a tag of stage `k` or later. -/
lemma switch_step_preserves (k : Nat) (s : EffState) (c : Choice)
    (hk : k ≤ s.invs.length)
    (hdead : ∀ (i : Nat) (r : InvRec), i < k → s.invs[i]? = some (some r) → r.live = false) :
    k ≤ (effStep true s c).invs.length ∧
    (∀ (i : Nat) (r : InvRec), i < k →
        (effStep true s c).invs[i]? = some (some r) → r.live = false) ∧
    (∃ ext, (effStep true s c).output = s.output ++ ext ∧ ∀ p ∈ ext, k ≤ p.1) := by
  by_cases hf : s.failed.isSome
  · rw [effStep_frozen _ _ _ hf]
    exact ⟨hk, hdead, [], by simp, by simp⟩
  cases c with
  | deliver =>
    cases hp : s.pending with
    | nil =>
      cases hsd : s.srcDone with
      | true =>
        simp only [effStep, hf, Bool.false_eq_true, if_false, hp, hsd, if_true]
        exact ⟨hk, hdead, [], by simp, by simp⟩
      | false =>
        cases he : s.ending with
        | some e =>
          simp only [effStep, hf, Bool.false_eq_true, if_false, hp, hsd, he]
          refine ⟨by simpa [clearAll] using hk, ?_, [], by simp, by simp⟩
          intro i r _ hx
          exact absurd hx (clearAll_getElem? s.invs i r)
        | none =>
          simp only [effStep, hf, Bool.false_eq_true, if_false, hp, hsd, he]
          exact ⟨hk, hdead, [], by simp, by simp⟩
    | cons call rest =>
      cases hi : innerStream call with
      | error e =>
        simp only [effStep, hf, Bool.false_eq_true, if_false, hp, hi]
        refine ⟨by simpa [clearAll] using hk, ?_, [], by simp, by simp⟩
        intro i r _ hx
        exact absurd hx (clearAll_getElem? s.invs i r)
      | ok EL =>
        obtain ⟨E0, L0⟩ := EL
        simp only [effStep, hf, Bool.false_eq_true, if_false, hp, hi, if_true]
        have hklen : k ≤ (killAll s.invs).length := by
          simpa [killAll] using hk
        refine ⟨?_, ?_, [], by simp, by simp⟩
        · rw [List.length_append]
          exact Nat.le_add_right_of_le hklen
        · intro i r hik hx
          have hikl : i < (killAll s.invs).length := Nat.lt_of_lt_of_le hik hklen
          rw [List.getElem?_append_left hikl] at hx
          exact killAll_getElem? s.invs i r hx
  | advance i =>
    cases hg : s.invs[i]? with
    | none =>
      simp only [effStep, hf, Bool.false_eq_true, if_false, hg]
      exact ⟨hk, hdead, [], by simp, by simp⟩
    | some o =>
      cases o with
      | none =>
        simp only [effStep, hf, Bool.false_eq_true, if_false, hg]
        exact ⟨hk, hdead, [], by simp, by simp⟩
      | some r =>
        by_cases hl : r.live
        · have hik : k ≤ i := by
            by_contra hlt
            have := hdead i r (Nat.lt_of_not_le hlt) hg
            rw [this] at hl
            exact Bool.noConfusion hl
          cases hre : r.emits with
          | cons v restE =>
            simp only [effStep, hf, Bool.false_eq_true, if_false, hg, hl, hre, if_true]
            refine ⟨by simpa using hk, ?_, [(i, v)], rfl, ?_⟩
            · intro j r' hjk hx
              have hij : i ≠ j := fun hc => Nat.not_le.mpr hjk (hc ▸ hik)
              rw [List.getElem?_set_ne hij] at hx
              exact hdead j r' hjk hx
            · intro p hp
              simp only [List.mem_singleton] at hp
              subst hp
              exact hik
          | nil =>
            cases hrl : r.logs with
            | cons e restL =>
              simp only [effStep, hf, Bool.false_eq_true, if_false, hg, hl, hre, hrl, if_true]
              refine ⟨by simpa using hk, ?_, [], by simp, by simp⟩
              intro j r' hjk hx
              have hij : i ≠ j := fun hc => Nat.not_le.mpr hjk (hc ▸ hik)
              rw [List.getElem?_set_ne hij] at hx
              exact hdead j r' hjk hx
            | nil =>
              simp only [effStep, hf, Bool.false_eq_true, if_false, hg, hl, hre, hrl, if_true]
              refine ⟨by simpa using hk, ?_, [], by simp, by simp⟩
              intro j r' hjk hx
              by_cases hij : i = j
              · subst hij
                have hil : i < s.invs.length := by
                  rcases List.getElem?_eq_some.mp hg with ⟨h, _⟩
                  exact h
                rw [List.getElem?_set_self hil] at hx
                exact Option.noConfusion (Option.some.inj hx)
              · rw [List.getElem?_set_ne hij] at hx
                exact hdead j r' hjk hx
        · simp only [effStep, hf, Bool.false_eq_true, if_false, hg, hl]
          refine ⟨by simpa using hk, ?_, [], by simp, by simp⟩
          intro j r' hjk hx
          by_cases hij : i = j
          · subst hij
            have hil : i < s.invs.length := by
              rcases List.getElem?_eq_some.mp hg with ⟨h, _⟩
              exact h
            rw [List.getElem?_set_self hil] at hx
            exact Option.noConfusion (Option.some.inj hx)
          · rw [List.getElem?_set_ne hij] at hx
            exact hdead j r' hjk hx

lemma switch_run_preserves (k : Nat) (sched : List Choice) (s : EffState)
    (hk : k ≤ s.invs.length)
    (hdead : ∀ (i : Nat) (r : InvRec), i < k → s.invs[i]? = some (some r) → r.live = false) :
    k ≤ (effRun true s sched).invs.length ∧
    (∀ (i : Nat) (r : InvRec), i < k →
        (effRun true s sched).invs[i]? = some (some r) → r.live = false) ∧
    (∃ ext, (effRun true s sched).output = s.output ++ ext ∧ ∀ p ∈ ext, k ≤ p.1) := by
  induction sched generalizing s with
  | nil => exact ⟨hk, hdead, [], by simp [effRun], by simp⟩
  | cons c rest ih =>
    obtain ⟨hk1, hdead1, ext1, hout1, htag1⟩ := switch_step_preserves k s c hk hdead
    obtain ⟨hk2, hdead2, ext2, hout2, htag2⟩ := ih (effStep true s c) hk1 hdead1
    refine ⟨hk2, hdead2, ext1 ++ ext2, ?_, ?_⟩
    · rw [effRun, List.foldl_cons, ← effRun, hout2, hout1, List.append_assoc]
    · intro p hp
      rcases List.mem_append.mp hp with h1 | h2
      · exact htag1 p h1
      · exact htag2 p h2

/-- C4: preempt policy (`config.switch = true`).  Let `s1` be the machine
state at the moment a further input event arrives (so every invocation
started so far, in particular any invocation A with unfinished output, has
index below `s1.invs.length`), let `s2` be the state right after that
delivery starts invocation B, and `s3` any state reachable from `s2`.
Then no output event appended after B started carries the tag of an
invocation started before B — none of A's remaining, not-yet-emitted
output ever reaches the merged output stream — and every earlier
invocation stays cancelled (`live = false`); by `effStep`, a cancelled
invocation is never advanced again: no further pull is taken on its
producer beyond the step in flight at cancellation, it is discarded
without emitting. -/
theorem claimC4_preempt_no_stale_output (inputs : List HandlerCall) (ending : Option JSVal)
    (sched1 sched2 : List Choice) (s1 s2 s3 : EffState)
    (h1 : s1 = effRun true (initState inputs ending) sched1)
    (hpend : ¬(s1.pending = []))
    (h2 : s2 = effStep true s1 Choice.deliver)
    (h3 : s3 = effRun true s2 sched2) :
    (∀ p ∈ s3.output.drop s2.output.length, s1.invs.length ≤ p.1) ∧
    (∀ (i : Nat) (r : InvRec), i < s1.invs.length →
        s3.invs[i]? = some (some r) → r.live = false) := by
  subst h3
  subst h2
  by_cases hf : s1.failed.isSome
  · rw [effStep_frozen _ _ _ hf, effRun_frozen _ _ _ hf]
    constructor
    · intro p hp
      rw [List.drop_length] at hp
      exact absurd hp (List.not_mem_nil p)
    · intro i r _ hx
      have hclear : FailedClear s1 := by
        rw [h1]
        refine failedClear_run true (initState inputs ending) sched1 ?_
        intro hcontra
        simp [initState] at hcontra
      obtain ⟨hlt, heq⟩ := List.getElem?_eq_some.mp hx
      have hm := List.getElem_mem hlt
      rw [heq] at hm
      exact Option.noConfusion (hclear hf _ hm)
  · cases hp : s1.pending with
    | nil => exact absurd hp hpend
    | cons call rest =>
      cases hi : innerStream call with
      | error e =>
        have hs2 : effStep true s1 Choice.deliver
            = { s1 with failed := some e, pending := rest, invs := clearAll s1.invs } := by
          simp [effStep, hf, hp, hi]
        rw [hs2, effRun_frozen _ _ _ (by simp)]
        constructor
        · intro p hp2
          simp only at hp2
          rw [List.drop_length] at hp2
          exact absurd hp2 (List.not_mem_nil p)
        · intro i r _ hx
          simp only at hx
          exact absurd hx (clearAll_getElem? s1.invs i r)
      | ok EL =>
        obtain ⟨E0, L0⟩ := EL
        have hs2 : effStep true s1 Choice.deliver
            = { s1 with pending := rest,
                        invs := killAll s1.invs ++ [some (InvRec.mk E0 L0 true)] } := by
          simp [effStep, hf, hp, hi]
        rw [hs2]
        have hk : s1.invs.length ≤ (killAll s1.invs ++ [some (InvRec.mk E0 L0 true)]).length := by
          simp [killAll]
        have hdead : ∀ (i : Nat) (r : InvRec), i < s1.invs.length →
            (killAll s1.invs ++ [some (InvRec.mk E0 L0 true)])[i]? = some (some r) →
            r.live = false := by
          intro i r hik hx
          have hikl : i < (killAll s1.invs).length := by
            simpa [killAll] using hik
          rw [List.getElem?_append_left hikl] at hx
          exact killAll_getElem? s1.invs i r hx
        obtain ⟨hk2, hdead2, ext, hout, htag⟩ :=
          switch_run_preserves s1.invs.length sched2
            { s1 with pending := rest, invs := killAll s1.invs ++ [some (InvRec.mk E0 L0 true)] }
            hk hdead
        constructor
        · intro p hp2
          rw [hout] at hp2
          simp only at hp2
          rw [List.drop_left] at hp2
          exact htag p hp2
        · exact hdead2

/-- Witness for C4: invocation A (an array result, one event already
emitted) is preempted by invocation B; afterwards A stays cancelled and the
only appended events carry B's tag. -/
theorem claimC4_preempt_no_stale_output_witness :
    ¬((effRun true
        (initState [HandlerCall.ret (JSVal.arr [JSAtom.str "a", JSAtom.str "b"]) [],
                    HandlerCall.retPromise (Except.ok (JSVal.str "c"))] none)
        [Choice.deliver, Choice.advance 0]).pending = []) ∧
    ((∀ p ∈ (effRun true
          (effStep true
            (effRun true
              (initState [HandlerCall.ret (JSVal.arr [JSAtom.str "a", JSAtom.str "b"]) [],
                          HandlerCall.retPromise (Except.ok (JSVal.str "c"))] none)
              [Choice.deliver, Choice.advance 0]) Choice.deliver)
          [Choice.advance 0, Choice.advance 1, Choice.advance 1]).output.drop
        (effStep true
            (effRun true
              (initState [HandlerCall.ret (JSVal.arr [JSAtom.str "a", JSAtom.str "b"]) [],
                          HandlerCall.retPromise (Except.ok (JSVal.str "c"))] none)
              [Choice.deliver, Choice.advance 0]) Choice.deliver).output.length,
        (effRun true
          (initState [HandlerCall.ret (JSVal.arr [JSAtom.str "a", JSAtom.str "b"]) [],
                      HandlerCall.retPromise (Except.ok (JSVal.str "c"))] none)
          [Choice.deliver, Choice.advance 0]).invs.length ≤ p.1) ∧
     (∀ (i : Nat) (r : InvRec),
        i < (effRun true
              (initState [HandlerCall.ret (JSVal.arr [JSAtom.str "a", JSAtom.str "b"]) [],
                          HandlerCall.retPromise (Except.ok (JSVal.str "c"))] none)
              [Choice.deliver, Choice.advance 0]).invs.length →
        (effRun true
          (effStep true
            (effRun true
              (initState [HandlerCall.ret (JSVal.arr [JSAtom.str "a", JSAtom.str "b"]) [],
                          HandlerCall.retPromise (Except.ok (JSVal.str "c"))] none)
              [Choice.deliver, Choice.advance 0]) Choice.deliver)
          [Choice.advance 0, Choice.advance 1, Choice.advance 1]).invs[i]?
          = some (some r) → r.live = false)) :=
  ⟨by decide,
   claimC4_preempt_no_stale_output
     [HandlerCall.ret (JSVal.arr [JSAtom.str "a", JSAtom.str "b"]) [],
      HandlerCall.retPromise (Except.ok (JSVal.str "c"))] none
     [Choice.deliver, Choice.advance 0] [Choice.advance 0, Choice.advance 1, Choice.advance 1]
     _ _ _ rfl (by decide) rfl rfl⟩

lemma rawPulls_closed (S : RawState → Prop)
    (hstep : ∀ s, S s → S (rawStep s RawChoice.pull)) :
    ∀ (n : Nat) (s : RawState), S s → S (rawRunFrom s (pullsN n)) := by
  intro n
  induction n with
  | zero => intro s hs; exact hs
  | succ k ih =>
    intro s hs
    have hrep : pullsN (k + 1) = RawChoice.pull :: pullsN k := rfl
    rw [rawRunFrom, hrep, List.foldl_cons]
    exact ih _ (hstep s hs)

lemma rawRunFrom_frozen (s : RawState) (sched : List RawChoice)
    (h : s.ended.isSome) : rawRunFrom s sched = s := by
  induction sched with
  | nil => rfl
  | cons c rest ih =>
    rw [rawRunFrom, List.foldl_cons]
    have : rawStep s c = s := by
      rw [rawStep.eq_def]
      simp [h]
    rw [this]
    exact ih

lemma rawPend_pulls (n : Nat) : rawRunFrom rawPend (pullsN n) = rawPend := by
  refine rawPulls_closed (fun s => s = rawPend) ?_ n rawPend rfl
  intro s hs
  rw [hs]
  decide

lemma rawPulls_init_succ (m : Nat) :
    rawRunFrom rawInit (pullsN (m + 1)) = rawPend := by
  have hrep : pullsN (m + 1) = RawChoice.pull :: pullsN m := rfl
  rw [rawRunFrom, hrep, List.foldl_cons]
  have h1 : rawStep rawInit RawChoice.pull = rawPend := by decide
  rw [h1, ← rawRunFrom, rawPend_pulls]

/-- C9 counterexample: in raw mode, an input item `'foo'` arrives (settling
the one-shot signal promise), the handler pulls it, pulls again (the pull
suspends on the empty buffer), and then the input stream fails with `'E'`.
The rejection hits the already-settled promise and is lost: the generator
neither raises nor finishes (`ended = none`), the pull stays suspended
forever, so the claim that the pending pull is rejected with the failure —
for every point at which the failure arrives, including after earlier
items were delivered — is false. -/
theorem claimC9_rejection_lost_counterexample :
    (rawRun [RawChoice.arrive (RawSig.next (JSVal.str "foo")), RawChoice.pull,
             RawChoice.pull, RawChoice.arrive (RawSig.fail (JSVal.str "E"))]).ended
      = none ∧
    (rawRun [RawChoice.arrive (RawSig.next (JSVal.str "foo")), RawChoice.pull,
             RawChoice.pull, RawChoice.arrive (RawSig.fail (JSVal.str "E"))]).pendingPull
      = true ∧
    (rawRun [RawChoice.arrive (RawSig.next (JSVal.str "foo")), RawChoice.pull,
             RawChoice.pull, RawChoice.arrive (RawSig.fail (JSVal.str "E"))]).served
      = [JSVal.str "foo"] := by decide

/-- C9 amended: the pending pull is rejected with the input stream's
failure exactly when the failure is the first signal the generator's
observer receives (before any item or completion has settled the one-shot
signal promise): whenever the failure arrives first, any pull — already
suspended or issued later — raises the failure value into the handler. -/
theorem claimC9_first_signal_rejection (e : JSVal) (k1 k2 : Nat) (hk : 1 ≤ k1 + k2) :
    (rawRun (pullsN k1 ++ [RawChoice.arrive (RawSig.fail e)] ++ pullsN k2)).ended
      = some (some e) := by
  have hrun : rawRun (pullsN k1 ++ [RawChoice.arrive (RawSig.fail e)] ++ pullsN k2)
      = rawRunFrom
          (rawStep (rawRunFrom rawInit (pullsN k1)) (RawChoice.arrive (RawSig.fail e)))
          (pullsN k2) := by
    simp only [rawRun, rawRunFrom, List.foldl_append, List.foldl_cons, List.foldl_nil]
  rw [hrun]
  cases k1 with
  | zero =>
    have h0 : rawRunFrom rawInit (pullsN 0) = rawInit := rfl
    rw [h0]
    have hstep : rawStep rawInit (RawChoice.arrive (RawSig.fail e))
        = { rawInit with settled := some (some e) } := rfl
    rw [hstep]
    cases k2 with
    | zero => omega
    | succ m =>
      have hrep : pullsN (m + 1) = RawChoice.pull :: pullsN m := rfl
      rw [hrep, rawRunFrom, List.foldl_cons]
      have hstep2 : rawStep { rawInit with settled := some (some e) } RawChoice.pull
          = { rawInit with settled := some (some e), ended := some (some e) } := rfl
      rw [hstep2, ← rawRunFrom, rawRunFrom_frozen _ _ (by rfl)]
  | succ m =>
    rw [rawPulls_init_succ m]
    have hstep : rawStep rawPend (RawChoice.arrive (RawSig.fail e))
        = { rawInit with settled := some (some e), ended := some (some e) } := rfl
    rw [hstep, rawRunFrom_frozen _ _ (by rfl)]

/-- Witness for C9 amended: the failure is the one and only signal; the
suspended pull raises it. -/
theorem claimC9_first_signal_rejection_witness :
    1 ≤ 1 + 0 ∧
    (rawRun (pullsN 1 ++ [RawChoice.arrive (RawSig.fail (JSVal.str "E"))] ++ pullsN 0)).ended
      = some (some (JSVal.str "E")) :=
  ⟨by decide, claimC9_first_signal_rejection (JSVal.str "E") 1 0 (by decide)⟩

lemma rawPhase2 (n : Nat) (s : RawState) (h : s = rawB0 ∨ s = rawB1 ∨ s = rawB1p) :
    rawRunFrom s (pullsN n) = rawB0 ∨ rawRunFrom s (pullsN n) = rawB1 ∨
      rawRunFrom s (pullsN n) = rawB1p := by
  refine rawPulls_closed (fun t => t = rawB0 ∨ t = rawB1 ∨ t = rawB1p) ?_ n s h
  intro t ht
  rcases ht with rfl | rfl | rfl
  · exact Or.inr (Or.inl (by decide))
  · exact Or.inr (Or.inr (by decide))
  · exact Or.inr (Or.inr (by decide))

lemma rawPhase3 (n : Nat) (s : RawState)
    (h : s = rawC0 ∨ s = rawC1 ∨ s = rawC2 ∨ s = rawC2p) :
    rawRunFrom s (pullsN n) = rawC0 ∨ rawRunFrom s (pullsN n) = rawC1 ∨
      rawRunFrom s (pullsN n) = rawC2 ∨ rawRunFrom s (pullsN n) = rawC2p := by
  refine rawPulls_closed (fun t => t = rawC0 ∨ t = rawC1 ∨ t = rawC2 ∨ t = rawC2p) ?_ n s h
  intro t ht
  rcases ht with rfl | rfl | rfl | rfl
  · exact Or.inr (Or.inl (by decide))
  · exact Or.inr (Or.inr (Or.inl (by decide)))
  · exact Or.inr (Or.inr (Or.inr (by decide)))
  · exact Or.inr (Or.inr (Or.inr (by decide)))

lemma rawPhase4 (n : Nat) (s : RawState)
    (h : s = rawD0 ∨ s = rawD1 ∨ s = rawD2 ∨ s = rawDEnd) :
    rawRunFrom s (pullsN n) = rawD0 ∨ rawRunFrom s (pullsN n) = rawD1 ∨
      rawRunFrom s (pullsN n) = rawD2 ∨ rawRunFrom s (pullsN n) = rawDEnd := by
  refine rawPulls_closed (fun t => t = rawD0 ∨ t = rawD1 ∨ t = rawD2 ∨ t = rawDEnd) ?_ n s h
  intro t ht
  rcases ht with rfl | rfl | rfl | rfl
  · exact Or.inr (Or.inl (by decide))
  · exact Or.inr (Or.inr (Or.inl (by decide)))
  · exact Or.inr (Or.inr (Or.inr (by decide)))
  · exact Or.inr (Or.inr (Or.inr (by decide)))

lemma rawArriveFoo (s : RawState) (h : s = rawInit ∨ s = rawPend) :
    rawStep s (RawChoice.arrive (RawSig.next (JSVal.str "foo"))) = rawB0 ∨
      rawStep s (RawChoice.arrive (RawSig.next (JSVal.str "foo"))) = rawB1 := by
  rcases h with rfl | rfl
  · exact Or.inl (by decide)
  · exact Or.inr (by decide)

lemma rawArriveBar (s : RawState) (h : s = rawB0 ∨ s = rawB1 ∨ s = rawB1p) :
    rawStep s (RawChoice.arrive (RawSig.next (JSVal.str "bar"))) = rawC0 ∨
      rawStep s (RawChoice.arrive (RawSig.next (JSVal.str "bar"))) = rawC1 ∨
      rawStep s (RawChoice.arrive (RawSig.next (JSVal.str "bar"))) = rawC2 ∨
      rawStep s (RawChoice.arrive (RawSig.next (JSVal.str "bar"))) = rawC2p := by
  rcases h with rfl | rfl | rfl
  · exact Or.inl (by decide)
  · exact Or.inr (Or.inl (by decide))
  · exact Or.inr (Or.inr (Or.inl (by decide)))

lemma rawArriveComplete (s : RawState) (h : s = rawC0 ∨ s = rawC1 ∨ s = rawC2 ∨ s = rawC2p) :
    rawStep s (RawChoice.arrive RawSig.complete) = rawD0 ∨
      rawStep s (RawChoice.arrive RawSig.complete) = rawD1 ∨
      rawStep s (RawChoice.arrive RawSig.complete) = rawD2 ∨
      rawStep s (RawChoice.arrive RawSig.complete) = rawDEnd := by
  rcases h with rfl | rfl | rfl | rfl
  · exact Or.inl (by decide)
  · exact Or.inr (Or.inl (by decide))
  · exact Or.inr (Or.inr (Or.inl (by decide)))
  · exact Or.inr (Or.inr (Or.inr (by decide)))

/-- C8: raw mode.  For input events `['foo','bar']` followed by completion,
arriving at any points relative to the handler's pulls, a handler that
pulls each item and yields its upper-cased form produces — whenever the
input sequence reports done — the served items `['foo','bar']` in arrival
order (items arriving before being pulled are buffered and served after
the input completes), and the piped output stream carries exactly
`['FOO','BAR']`. -/
theorem claimC8_raw_mode_scenario (p1 p2 p3 p4 : Nat) (sched : List RawChoice)
    (hs : sched = pullsN p1 ++ [RawChoice.arrive (RawSig.next (JSVal.str "foo"))]
        ++ pullsN p2 ++ [RawChoice.arrive (RawSig.next (JSVal.str "bar"))]
        ++ pullsN p3 ++ [RawChoice.arrive RawSig.complete] ++ pullsN p4)
    (hend : (rawRun sched).ended = some none) :
    (rawRun sched).served = [JSVal.str "foo", JSVal.str "bar"] ∧
    innerPipe ((rawRun sched).served.map upperJS) none
      = ([JSVal.str "FOO", JSVal.str "BAR"], []) := by
  subst hs
  have hrun : rawRun (pullsN p1 ++ [RawChoice.arrive (RawSig.next (JSVal.str "foo"))]
        ++ pullsN p2 ++ [RawChoice.arrive (RawSig.next (JSVal.str "bar"))]
        ++ pullsN p3 ++ [RawChoice.arrive RawSig.complete] ++ pullsN p4)
      = rawRunFrom
          (rawStep
            (rawRunFrom
              (rawStep
                (rawRunFrom
                  (rawStep (rawRunFrom rawInit (pullsN p1))
                    (RawChoice.arrive (RawSig.next (JSVal.str "foo"))))
                  (pullsN p2))
                (RawChoice.arrive (RawSig.next (JSVal.str "bar"))))
              (pullsN p3))
            (RawChoice.arrive RawSig.complete))
          (pullsN p4) := by
    simp only [rawRun, rawRunFrom, List.foldl_append, List.foldl_cons, List.foldl_nil]
  rw [hrun] at hend ⊢
  have h1 : rawRunFrom rawInit (pullsN p1) = rawInit ∨
      rawRunFrom rawInit (pullsN p1) = rawPend := by
    cases p1 with
    | zero => exact Or.inl rfl
    | succ m => exact Or.inr (rawPulls_init_succ m)
  have h2 := rawArriveFoo _ h1
  have h3 := rawPhase2 p2 _ (Or.elim h2 (fun h => Or.inl h) (fun h => Or.inr (Or.inl h)))
  have h4 := rawArriveBar _ h3
  have h5 := rawPhase3 p3 _ h4
  have h6 := rawArriveComplete _ h5
  have h7 := rawPhase4 p4 _ h6
  rcases h7 with h | h | h | h
  · rw [h] at hend
    exact absurd hend (by decide)
  · rw [h] at hend
    exact absurd hend (by decide)
  · rw [h] at hend
    exact absurd hend (by decide)
  · rw [h]
    exact ⟨by decide, by decide⟩

/-- Witness for C8: the real trace of the repository's raw-mode test — both
items and the completion arrive synchronously before the handler's pulls. -/
theorem claimC8_raw_mode_scenario_witness :
    (rawRun (pullsN 0 ++ [RawChoice.arrive (RawSig.next (JSVal.str "foo"))]
        ++ pullsN 0 ++ [RawChoice.arrive (RawSig.next (JSVal.str "bar"))]
        ++ pullsN 0 ++ [RawChoice.arrive RawSig.complete] ++ pullsN 3)).ended = some none ∧
    ((rawRun (pullsN 0 ++ [RawChoice.arrive (RawSig.next (JSVal.str "foo"))]
        ++ pullsN 0 ++ [RawChoice.arrive (RawSig.next (JSVal.str "bar"))]
        ++ pullsN 0 ++ [RawChoice.arrive RawSig.complete] ++ pullsN 3)).served
      = [JSVal.str "foo", JSVal.str "bar"] ∧
     innerPipe ((rawRun (pullsN 0 ++ [RawChoice.arrive (RawSig.next (JSVal.str "foo"))]
        ++ pullsN 0 ++ [RawChoice.arrive (RawSig.next (JSVal.str "bar"))]
        ++ pullsN 0 ++ [RawChoice.arrive RawSig.complete] ++ pullsN 3)).served.map upperJS)
        none
      = ([JSVal.str "FOO", JSVal.str "BAR"], [])) :=
  ⟨by decide, claimC8_raw_mode_scenario 0 0 0 3 _ rfl (by decide)⟩
